import Mathlib

/-!
Verification development for the nba-pressers-digest pipeline.

The Python sources under scripts/ are shallowly embedded: dicts become
structures whose fields are `Option`-valued (a missing key is `none`),
Python floats become `ℚ`, a function that can raise returns `Option`/`Except`,
and the effect of an external process (LLM call, yt-dlp download) is an
explicit oracle argument.  Each definition is a direct translation of the
function of the same name in the repository.
-/

/-! ## Models of Python string primitives

`str.split(sep)`, `str.strip()`, `str.lower()`, the `in` substring test,
`int(s)` and `float(s)` as used by scripts/score_moments.py and friends.
-/

/-- The whitespace characters `str.strip()` and `str.split()` remove
(the ASCII subset, which is all the pipeline's data contains). -/
def isPySpace (c : Char) : Bool :=
  c = ' ' || c = '\t' || c = '\n' || c = '\r' || c = '\x0b' || c = '\x0c'

/-- Python `s.split(sep)` for a one-character separator, on char lists:
`"".split(':') = ['']`, separators at the ends produce empty parts. -/
def splitChar (sep : Char) : List Char → List (List Char)
  | [] => [[]]
  | a :: rest =>
    if a = sep then [] :: splitChar sep rest
    else
      match splitChar sep rest with
      | [] => [[a]]
      | g :: gs => (a :: g) :: gs

/-- Python `s.strip()` on a char list: drop leading and trailing whitespace. -/
def stripWsL (l : List Char) : List Char :=
  ((l.dropWhile isPySpace).reverse.dropWhile isPySpace).reverse

/-- Python `s.strip()`. -/
def pyStrip (s : String) : String := ⟨stripWsL s.data⟩

/-- Python `s.lower()` (ASCII case folding, which covers every keyword the
pipeline compares against). -/
def pyLower (s : String) : String := ⟨s.data.map Char.toLower⟩

/-- `l.take p.length = p`: does `l` start with `p`? -/
def listBeginsWith (p l : List Char) : Bool := decide (l.take p.length = p)

/-- Python's substring test `needle in hay`, on char lists. -/
def pyContainsL (needle : List Char) : List Char → Bool
  | [] => decide (needle = [])
  | c :: rest => listBeginsWith needle (c :: rest) || pyContainsL needle rest

/-- Python's substring test `needle in hay` on strings. -/
def pyContains (needle hay : String) : Bool := pyContainsL needle.data hay.data

/-- Value of a digit string, most significant first (the accumulator fold
both `int` and `float` reduce to on their digit runs). -/
def pyNatVal (l : List Char) : ℕ := l.foldl (fun a c => 10 * a + (c.toNat - 48)) 0

/-- Do the chars form digit groups separated by single underscores
(`int`/`float` digit-run syntax: `1_000` yes, `_1`, `1_`, `1__0`, `` no)? -/
def digitGroupsOk (l : List Char) : Bool :=
  (splitChar '_' l).all fun g => !g.isEmpty && g.all Char.isDigit

/-- The digit-run value: underscores dropped, remaining digits folded. -/
def digitsVal (l : List Char) : ℕ := pyNatVal (l.filter (· ≠ '_'))

/-- An unsigned decimal integer literal as `int()` accepts after sign
stripping. -/
def parseUDec (l : List Char) : Option ℕ :=
  if digitGroupsOk l then some (digitsVal l) else none

/-- Python `int(s)` (base 10): strip whitespace, optional sign, then an
underscore-grouped digit run; `none` models the `ValueError` raise. -/
def pyIntChars (l : List Char) : Option ℤ :=
  match stripWsL l with
  | [] => none
  | c :: rest =>
    if c = '+' then (parseUDec rest).map Int.ofNat
    else if c = '-' then (parseUDec rest).map fun v => -(v : ℤ)
    else (parseUDec (c :: rest)).map Int.ofNat

/-- Split off the exponent part at the first `e`/`E` (Python float syntax);
returns the mantissa chars and, when a marker was present, the chars after it. -/
def splitExp : List Char → List Char × Option (List Char)
  | [] => ([], none)
  | c :: rest =>
    if c = 'e' ∨ c = 'E' then ([], some rest)
    else
      match splitExp rest with
      | (m, e) => (c :: m, e)

/-- The mantissa of a float literal: digits with at most one `.`, at least one
digit overall, underscore-grouped digit runs on each side. -/
def parseMantissa (l : List Char) : Option ℚ :=
  match splitChar '.' l with
  | [ip] => if digitGroupsOk ip then some (digitsVal ip : ℚ) else none
  | [ip, fp] =>
    if (digitGroupsOk ip || ip.isEmpty) && (digitGroupsOk fp || fp.isEmpty)
        && !(ip.isEmpty && fp.isEmpty) then
      some ((digitsVal ip : ℚ) + (digitsVal fp : ℚ) / 10 ^ (fp.filter (· ≠ '_')).length)
    else none
  | _ => none

/-- The exponent factor `10^±k` of a float literal. -/
def parseExpFactor (l : List Char) : Option ℚ :=
  match l with
  | [] => none
  | c :: rest =>
    if c = '+' then (parseUDec rest).map fun k => (10 : ℚ) ^ k
    else if c = '-' then (parseUDec rest).map fun k => ((10 : ℚ) ^ k)⁻¹
    else (parseUDec (c :: rest)).map fun k => (10 : ℚ) ^ k

/-- The body of a float literal after the sign: mantissa and optional exponent. -/
def pyFloatBody (l : List Char) : Option ℚ :=
  match splitExp l with
  | (mant, none) => parseMantissa mant
  | (mant, some ex) =>
    match parseMantissa mant, parseExpFactor ex with
    | some v, some f => some (v * f)
    | _, _ => none

/-- Python `float(s)` on finite decimal literals: strip whitespace, optional
sign, digits with optional `.` and exponent; `none` models the `ValueError`
raise.  (`inf`/`nan` literals are outside the model: no value of the pipeline
reaches them.) -/
def pyFloatChars (l : List Char) : Option ℚ :=
  match stripWsL l with
  | [] => none
  | c :: rest =>
    if c = '+' then pyFloatBody rest
    else if c = '-' then (pyFloatBody rest).map Neg.neg
    else pyFloatBody (c :: rest)

/-- Python `str(n)` for a natural number, with fuel mirroring the structural
recursion (`fuel ≥ n + 1` always suffices). -/
def natDecimalAux : ℕ → ℕ → List Char
  | 0, _ => []
  | fuel + 1, n =>
    if n < 10 then [Char.ofNat (48 + n)]
    else natDecimalAux fuel (n / 10) ++ [Char.ofNat (48 + n % 10)]

/-- Python `str(n)` for a natural number: decimal digits, most significant
first. -/
def natDecimal (n : ℕ) : List Char := natDecimalAux (n + 1) n

/-- Python `str(z)` for an int: optional `-` sign then decimal digits. -/
def intDecimal (z : ℤ) : List Char :=
  if z < 0 then '-' :: natDecimal z.natAbs else natDecimal z.toNat

/-- Python `f"{k:02d}"` for a natural number: zero-pad to two digits. -/
def pad2 (k : ℕ) : List Char := if k < 10 then '0' :: natDecimal k else natDecimal k

/-- Python `str.split()` with no argument: split on whitespace runs, no empty
words (word accumulator pass). -/
def pyWordsGo (cur : List Char) : List Char → List (List Char)
  | [] => if cur.isEmpty then [] else [cur.reverse]
  | c :: rest =>
    if isPySpace c then
      if cur.isEmpty then pyWordsGo [] rest else cur.reverse :: pyWordsGo [] rest
    else pyWordsGo (c :: cur) rest

/-- Python `s.split()`: the whitespace-separated words of `s`. -/
def pyWords (l : List Char) : List (List Char) := pyWordsGo [] l

/-! ## scripts/ingest.py — keyword classification -/

/-- `PRESS_CONFERENCE_KEYWORDS` of scripts/ingest.py. -/
def PRESS_CONFERENCE_KEYWORDS : List String :=
  ["press conference", "postgame", "post-game", "post game", "pregame",
   "pre-game", "pre game", "media availability", "interview", "presser",
   "talks to media", "speaks to media", "talks", "speaks", "reacts",
   "discusses", "addresses", "shootaround"]

/-- `EXCLUDE_KEYWORDS` of scripts/ingest.py. -/
def EXCLUDE_KEYWORDS : List String :=
  ["highlights", "full game", "game recap", "top plays", "best plays",
   "buzzer beater", "all-access", "behind the scenes", "mix", "hype video",
   "promo", "trailer", "dunk", "block", "assist"]

/-- `is_press_conference` of scripts/ingest.py: lowercase the title, reject on
any exclude keyword, then accept on any press-conference keyword. -/
def isPressConference (title : String) : Bool :=
  let titleLower := pyLower title
  if EXCLUDE_KEYWORDS.any (fun k => pyContains k titleLower) then false
  else if PRESS_CONFERENCE_KEYWORDS.any (fun k => pyContains k titleLower) then true
  else false

/-! ## scripts/score_moments.py — data model -/

/-- One transcript segment as transcribe.py produces and score_moments.py
consumes (`.get` with defaults: every key is optional). -/
structure TranscriptSegment where
  start : Option ℚ
  duration : Option ℚ
  text : Option String
deriving DecidableEq

/-- The transcript dict attached to a video (`full_text`, `segments`,
`word_count`, `method`). -/
structure TranscriptInfo where
  fullText : String
  segments : List TranscriptSegment
  wordCount : ℕ
  method : String
deriving DecidableEq

/-- A video dict flowing from ingest/transcribe into scoring. -/
structure VideoData where
  videoId : Option String
  title : Option String
  team : Option String
  url : Option String
  person : Option String
  transcript : Option TranscriptInfo
deriving DecidableEq

/-- A moment dict parsed from the LLM's JSON plus the metadata keys
`score_all_transcripts` adds to validated moments. -/
structure Moment where
  startTime : Option String
  endTime : Option String
  headline : Option String
  whyItMatters : Option String
  score : Option ℚ
  category : Option String
  videoId : Option String
  team : Option String
  sourceTitle : Option String
  sourceUrl : Option String
  person : Option String
  startSeconds : Option ℚ
  endSeconds : Option ℚ
  durationSec : Option ℚ
deriving DecidableEq

/-- `timestamp_to_seconds` of scripts/score_moments.py: `MM:SS` or `H:MM:SS`
to seconds; any other number of `:`-parts returns `0`; `none` models a
`ValueError` raised by `int()`/`float()` on a non-numeric part. -/
def timestampToSeconds (ts : String) : Option ℚ :=
  match splitChar ':' ts.data with
  | [a, b] =>
    match pyIntChars a, pyFloatChars b with
    | some m, some s => some ((m : ℚ) * 60 + s)
    | _, _ => none
  | [a, b, c] =>
    match pyIntChars a, pyIntChars b, pyFloatChars c with
    | some h, some m, some s => some ((h : ℚ) * 3600 + (m : ℚ) * 60 + s)
    | _, _, _ => none
  | _ => some 0

/-- `validate_moment` of scripts/score_moments.py: required keys present, then
`start < end`, `0 ≤ start`, `end ≤ duration + 10`, and clip length within
10–90 s.  `some b` is the returned bool; `none` models the `ValueError` that
`timestamp_to_seconds` lets escape on a non-numeric `M:SS` part. -/
def validateMoment (m : Moment) (transcriptDuration : ℚ) : Option Bool :=
  if m.startTime.isNone || m.endTime.isNone || m.headline.isNone || m.score.isNone then
    some false
  else
    match timestampToSeconds (m.startTime.getD ""), timestampToSeconds (m.endTime.getD "") with
    | some s, some e =>
      if s ≥ e then some false
      else if s < 0 ∨ e > transcriptDuration + 10 then some false
      else if e - s < 10 ∨ e - s > 90 then some false
      else some true
    | _, _ => none

/-- The `f"{minutes}:{seconds:02d}"` formatter of
`format_transcript_for_scoring` (and of `generate_metadata`):
`minutes = int(x // 60)`, `seconds = int(x % 60)` (Python float floor-division
and modulo, so `seconds ∈ [0, 60)`). -/
def fmtMinSec (x : ℚ) : String :=
  ⟨intDecimal ⌊x / 60⌋ ++ ':' :: pad2 (Int.toNat ⌊x - 60 * ⌊x / 60⌋⌋)⟩

/-- `format_transcript_for_scoring` of scripts/score_moments.py: one
`[M:SS] text` line per segment, or the full text when there are no segments. -/
def formatTranscriptForScoring (v : VideoData) : String :=
  match v.transcript with
  | none => ""
  | some t =>
    if t.segments.isEmpty then t.fullText
    else
      String.intercalate "\n"
        (t.segments.map fun seg =>
          "[" ++ fmtMinSec (seg.start.getD 0) ++ "] " ++ seg.text.getD "")

/-! ## scripts/score_moments.py — scoring all transcripts -/

/-- Which LLM backend `get_llm_client` selected. -/
inductive Provider where
  | anthropic
  | groq
deriving DecidableEq

/-- The environment `get_llm_client` inspects: whether each SDK imported and
whether each API key env var is set (non-empty). -/
structure EnvState where
  anthropicAvailable : Bool
  groqAvailable : Bool
  anthropicKey : Bool
  groqKey : Bool

/-- `get_llm_client` of scripts/score_moments.py: Anthropic preferred, Groq as
fallback, `RuntimeError` (modelled `Except.error ()`) when neither is usable. -/
def getLlmClient (env : EnvState) : Except Unit Provider :=
  if env.anthropicAvailable && env.anthropicKey then .ok .anthropic
  else if env.groqAvailable && env.groqKey then .ok .groq
  else .error ()

/-- The transcript duration estimate of `score_all_transcripts`:
`last_seg.start + last_seg.duration`, defaulting to 3600 s with no segments
(or no transcript dict). -/
def durationOfVideo (v : VideoData) : ℚ :=
  match v.transcript with
  | none => 3600
  | some t =>
    match t.segments.getLast? with
    | none => 3600
    | some seg => seg.start.getD 0 + seg.duration.getD 0

/-- The metadata enrichment `score_all_transcripts` applies to a validated
moment (`moment['video_id'] = ...` etc.; the timestamp re-parses succeed
because `validate_moment` already parsed them). -/
def enrichMoment (v : VideoData) (m : Moment) : Moment :=
  { m with
    videoId := some (v.videoId.getD "unknown")
    team := some (v.team.getD "")
    sourceTitle := some (v.title.getD "")
    sourceUrl := some (v.url.getD "")
    person := some (v.person.getD "")
    startSeconds := timestampToSeconds (m.startTime.getD "")
    endSeconds := timestampToSeconds (m.endTime.getD "")
    durationSec :=
      match timestampToSeconds (m.startTime.getD ""), timestampToSeconds (m.endTime.getD "") with
      | some s, some e => some (e - s)
      | _, _ => none }

/-- The per-video validation loop of `score_all_transcripts`: keep each moment
`validate_moment` accepts (enriched), drop each it rejects; `none` models the
exception a non-numeric timestamp raises out of the loop. -/
def collectValidMoments (v : VideoData) (dur : ℚ) : List Moment → Option (List Moment)
  | [] => some []
  | m :: ms =>
    match validateMoment m dur with
    | none => none
    | some true => (collectValidMoments v dur ms).map (enrichMoment v m :: ·)
    | some false => collectValidMoments v dur ms

/-- What `score_all_transcripts` records for one video: the validated moments,
or `[]` when the LLM call or the validation loop raised (the per-video
`except` branch).  `scoreFn` is the oracle for the LLM round trip
(`score_transcript_anthropic` / `score_transcript_groq`), `none` meaning it
raised. -/
def scoreVideoResult (scoreFn : Provider → VideoData → Option (List Moment))
    (p : Provider) (v : VideoData) : List Moment :=
  match scoreFn p v with
  | none => []
  | some moments => (collectValidMoments v (durationOfVideo v) moments).getD []

/-- Python dict assignment `d[k] = v` on an insertion-ordered association
list: update in place if the key exists, else append. -/
def dictSet {α : Type} (m : List (String × α)) (k : String) (v : α) : List (String × α) :=
  match m with
  | [] => [(k, v)]
  | (k', v') :: rest => if k' = k then (k, v) :: rest else (k', v') :: dictSet rest k v

/-- Python dict lookup `d[k]` / `k in d` on the same representation. -/
def dictLookup {α : Type} (m : List (String × α)) (k : String) : Option α :=
  match m with
  | [] => none
  | (k', v') :: rest => if k' = k then some v' else dictLookup rest k

/-- The per-video loop of `score_all_transcripts`, accumulating the
`all_moments` dict. -/
def scoreAllGo (scoreFn : Provider → VideoData → Option (List Moment)) (p : Provider)
    (acc : List (String × List Moment)) : List VideoData → List (String × List Moment)
  | [] => acc
  | v :: vs =>
    scoreAllGo scoreFn p
      (dictSet acc (v.videoId.getD "unknown") (scoreVideoResult scoreFn p v)) vs

/-- `score_all_transcripts` of scripts/score_moments.py: empty input returns
`{}` before any client lookup; otherwise `get_llm_client` may raise
(`Except.error`), and each video is scored with per-video exceptions recorded
as `[]`. -/
def scoreAllTranscripts (env : EnvState)
    (scoreFn : Provider → VideoData → Option (List Moment))
    (transcripts : List VideoData) : Except Unit (List (String × List Moment)) :=
  if transcripts.isEmpty then .ok []
  else
    match getLlmClient env with
    | .error e => .error e
    | .ok p => .ok (scoreAllGo scoreFn p [] transcripts)

/-! ## scripts/qa_checks.py — data model and checks -/

/-- A processed clip dict as qa_checks.py and compile_digest.py consume it
(every key read through `.get`, so every field is optional). -/
structure Clip where
  videoId : Option String
  team : Option String
  headline : Option String
  sourceUrl : Option String
  person : Option String
  clipPath : Option String
  score : Option ℚ
  duration : Option ℚ
  actualDuration : Option ℚ
  startSeconds : Option ℚ
  endSeconds : Option ℚ
deriving DecidableEq

/-- One ffprobe stream entry (`codec_name`, `width`, `height`). -/
structure FFStream where
  codecName : Option String
  width : Option ℤ
  height : Option ℤ
deriving DecidableEq

/-- The parsed ffprobe output `check_video_quality` reads (duration and size
already converted; a conversion failure is folded into the probe oracle
being `none`). -/
structure FFProbeInfo where
  duration : ℚ
  sizeBytes : ℤ
  streams : List FFStream
deriving DecidableEq

/-- `check_video_quality` of scripts/qa_checks.py.  `fsExists` is
`os.path.exists(video_path)`; `probe` is the ffprobe run, `none` when the
subprocess or the JSON parse raised (the `except` branch).  Warning texts
keep the static part of the source's f-strings; the interpolated numbers are
elided — no claim reads a warning's text. -/
def checkVideoQuality (fsExists : Bool) (probe : Option FFProbeInfo) : Bool × List String :=
  if !fsExists then (false, ["Video file does not exist"])
  else
    match probe with
    | none => (false, ["Error checking video"])
    | some info =>
      let ws1 := if info.duration < 60 then ["Video very short"] else []
      let ws2 := if info.duration > 600 then ["Video very long"] else []
      let sizeMb : ℚ := (info.sizeBytes : ℚ) / (1024 * 1024)
      let ws3 := if sizeMb < 1 then ["File size very small"] else []
      let ws4 := if sizeMb > 500 then ["File size very large"] else []
      let ws5 := info.streams.filterMap fun st =>
        if (st.codecName.getD "" = "h264" ∨ st.codecName.getD "" = "hevc"
              ∨ st.codecName.getD "" = "vp9") ∧ st.height.getD 0 < 480 then
          some "Low resolution"
        else none
      (true, ws1 ++ ws2 ++ ws3 ++ ws4 ++ ws5)

/-- The per-clip warnings of `check_clip_accuracy`, indexed from `i`
(`enumerate(clips, 1)`). -/
def clipAccuracyGo (i : ℕ) : List Clip → List String
  | [] => []
  | c :: cs =>
    let headline := c.headline.getD ""
    let ws1 := if headline.length > 60 then ["Clip " ++ ⟨natDecimal i⟩ ++ ": Headline too long"] else []
    let ws2 := if headline.length < 5 then ["Clip " ++ ⟨natDecimal i⟩ ++ ": Headline too short"] else []
    let dur := c.duration.getD 0
    let ws3 := if dur < 10 then ["Clip " ++ ⟨natDecimal i⟩ ++ ": Very short"] else []
    let ws4 := if dur > 90 then ["Clip " ++ ⟨natDecimal i⟩ ++ ": Very long"] else []
    let ws5 := if c.score.getD 0 < 5 then ["Clip " ++ ⟨natDecimal i⟩ ++ ": Low score"] else []
    let ws6 := if c.videoId.getD "" = "" then ["Clip " ++ ⟨natDecimal i⟩ ++ ": Missing video_id"] else []
    let ws7 := if c.team.getD "" = "" then ["Clip " ++ ⟨natDecimal i⟩ ++ ": Missing team"] else []
    let ws8 := if c.headline.getD "" = "" then ["Clip " ++ ⟨natDecimal i⟩ ++ ": Missing headline"] else []
    let ws9 := if c.sourceUrl.getD "" = "" then ["Clip " ++ ⟨natDecimal i⟩ ++ ": Missing source_url"] else []
    ws1 ++ ws2 ++ ws3 ++ ws4 ++ ws5 ++ ws6 ++ ws7 ++ ws8 ++ ws9 ++ clipAccuracyGo (i + 1) cs

/-- `check_clip_accuracy` of scripts/qa_checks.py: headline length, duration,
score and required-field warnings; passes iff no warnings. -/
def checkClipAccuracy (clips : List Clip) : Bool × List String :=
  let ws := clipAccuracyGo 1 clips
  (ws.isEmpty, ws)

/-- The effective team of a clip for the diversity count:
`clip.get('team', 'Unknown')`. -/
def effTeam (c : Clip) : String := c.team.getD "Unknown"

/-- `team_counts[team] = team_counts.get(team, 0) + 1` on the
insertion-ordered association list that models the Python dict. -/
def addTeam (m : List (String × ℕ)) (t : String) : List (String × ℕ) :=
  match m with
  | [] => [(t, 1)]
  | (k, v) :: rest => if k = t then (k, v + 1) :: rest else (k, v) :: addTeam rest t

/-- The `team_counts` dict of `check_content_diversity`. -/
def teamCountsGo (m : List (String × ℕ)) : List Clip → List (String × ℕ)
  | [] => m
  | c :: cs => teamCountsGo (addTeam m (effTeam c)) cs

/-- The `team_counts` dict of `check_content_diversity`, built from scratch. -/
def teamCounts (clips : List Clip) : List (String × ℕ) := teamCountsGo [] clips

/-- The `(team, count)` entries for which `check_content_diversity` emits an
over-representation warning: `total > 3 and count > total * 0.5`. -/
def overRepTeams (clips : List Clip) : List (String × ℕ) :=
  (teamCounts clips).filter fun p =>
    decide (3 < clips.length) && decide ((p.2 : ℚ) > (clips.length : ℚ) * (1 / 2))

/-- `check_content_diversity` of scripts/qa_checks.py: one over-representation
warning per skewed team, plus the low-diversity warning; passes iff no
warnings. -/
def checkContentDiversity (clips : List Clip) : Bool × List String :=
  let overWs := (overRepTeams clips).map fun p =>
    "Over-represented: " ++ p.1 ++ " (" ++ ⟨natDecimal p.2⟩ ++ "/" ++ ⟨natDecimal clips.length⟩ ++ " clips)"
  let lowWs :=
    if 5 < clips.length ∧ (teamCounts clips).length < 3 then
      ["Low diversity: Only " ++ (⟨natDecimal (teamCounts clips).length⟩ : String)
        ++ " teams in " ++ ⟨natDecimal clips.length⟩ ++ " clips"]
    else []
  let ws := overWs ++ lowWs
  (ws.isEmpty, ws)

/-- The per-clip warnings of `check_timestamps`, indexed from `i`. -/
def checkTimestampsGo (i : ℕ) : List Clip → List String
  | [] => []
  | c :: cs =>
    let start := c.startSeconds.getD 0
    let stop := c.endSeconds.getD 0
    let ws1 := if start ≥ stop then ["Clip " ++ ⟨natDecimal i⟩ ++ ": Invalid timestamps (start >= end)"] else []
    let ws2 := if start < 0 then ["Clip " ++ ⟨natDecimal i⟩ ++ ": Negative start time"] else []
    ws1 ++ ws2 ++ checkTimestampsGo (i + 1) cs

/-- `check_timestamps` of scripts/qa_checks.py: `start < end` and
non-negative start for every clip; passes iff no warnings. -/
def checkTimestamps (clips : List Clip) : Bool × List String :=
  let ws := checkTimestampsGo 1 clips
  (ws.isEmpty, ws)

/-- The per-clip warnings of `check_attribution`, indexed from `i`. -/
def checkAttributionGo (i : ℕ) : List Clip → List String
  | [] => []
  | c :: cs =>
    let ws1 := if c.team.getD "" = "" then ["Clip " ++ ⟨natDecimal i⟩ ++ ": Missing team attribution"] else []
    let ws2 := if c.sourceUrl.getD "" = "" then ["Clip " ++ ⟨natDecimal i⟩ ++ ": Missing source URL"] else []
    ws1 ++ ws2 ++ checkAttributionGo (i + 1) cs

/-- `check_attribution` of scripts/qa_checks.py: truthy `team` and
`source_url` on every clip; passes iff no warnings. -/
def checkAttribution (clips : List Clip) : Bool × List String :=
  let ws := checkAttributionGo 1 clips
  (ws.isEmpty, ws)

/-- The results dict `run_qa_checks` assembles. -/
structure QAResults where
  allPassed : Bool
  warnings : List String
  errors : List String
  videoQuality : Option (Bool × List String)
  clipAccuracy : Bool × List String
  contentDiversity : Bool × List String
  timestampsCheck : Bool × List String
  attribution : Bool × List String
  totalClips : ℕ
  totalWarnings : ℕ
  totalErrors : ℕ
deriving DecidableEq

/-- `run_qa_checks` of scripts/qa_checks.py.  `videoPath` is the optional
path argument (Python truthiness: `none` and `""` both skip the video check),
`fsExists` is `os.path.exists(video_path)` and `probe` the ffprobe oracle.
Only a failed video-quality, timestamps or attribution check clears
`all_passed`; clip-accuracy and diversity results only add warnings. -/
def runQaChecks (clips : List Clip) (videoPath : Option String) (fsExists : Bool)
    (probe : Option FFProbeInfo) : QAResults :=
  let videoRun := videoPath.getD "" ≠ "" ∧ fsExists
  let vq := if videoRun then some (checkVideoQuality fsExists probe) else none
  let afterVq : Bool × List String × List String :=
    match vq with
    | none => (true, [], [])
    | some (passed, ws) => if passed then (true, [], ws) else (false, ws, [])
  let ca := checkClipAccuracy clips
  let cd := checkContentDiversity clips
  let ts := checkTimestamps clips
  let at_ := checkAttribution clips
  let warnings := afterVq.2.2 ++ ca.2 ++ cd.2
  let allPassed1 := afterVq.1 && (if ts.1 then true else false)
  let errors1 := afterVq.2.1 ++ (if ts.1 then [] else ts.2)
  let allPassed2 := allPassed1 && (if at_.1 then true else false)
  let errors2 := errors1 ++ (if at_.1 then [] else at_.2)
  { allPassed := allPassed2
    warnings := warnings
    errors := errors2
    videoQuality := vq
    clipAccuracy := ca
    contentDiversity := cd
    timestampsCheck := ts
    attribution := at_
    totalClips := clips.length
    totalWarnings := warnings.length
    totalErrors := errors2.length }

/-! ## scripts/compile_digest.py — metadata generation -/

/-- The effective duration of a clip in `generate_metadata`:
`clip.get('actual_duration', clip.get('duration', 30))`. -/
def effDuration (c : Clip) : ℚ := c.actualDuration.getD (c.duration.getD 30)

/-- `clip.get('score', 0)`. -/
def clipScore (c : Clip) : ℚ := c.score.getD 0

/-- Python `max(clips, key=lambda x: x.get('score', 0))`: the first clip of
maximal score (later clips replace only on strictly greater key). -/
def maxByScore (c : Clip) (cs : List Clip) : Clip :=
  cs.foldl (fun best x => if clipScore x > clipScore best then x else best) c

/-- The timestamped description lines of `generate_metadata`: one
`M:SS - headline (team)` entry per clip, offsets accumulated by summing the
prior clips' effective durations. -/
def timestampsGo (current : ℚ) : List Clip → List String
  | [] => []
  | c :: cs =>
    (fmtMinSec current ++ " - " ++ c.headline.getD "Highlight"
        ++ " (" ++ c.team.getD "NBA" ++ ")")
      :: timestampsGo (current + effDuration c) cs

/-- The deduplicated source-attribution lines of `generate_metadata`
(`seen_urls` set semantics, falsy URLs skipped). -/
def sourceLinesGo (seen : List String) : List Clip → List String
  | [] => []
  | c :: cs =>
    let url := c.sourceUrl.getD ""
    if url ≠ "" ∧ url ∉ seen then
      ("• " ++ c.team.getD "" ++ ": " ++ url) :: sourceLinesGo (url :: seen) cs
    else sourceLinesGo seen cs

/-- The metadata dict `generate_metadata` returns. -/
structure DigestMetadata where
  title : String
  description : String
  twitterText : String
  timestamps : List String
  tags : List String
  totalDurationSeconds : ℚ
  totalDurationFormatted : String
  clipCount : ℕ
  date : String
  dateDisplay : String

/-- `generate_metadata` of scripts/compile_digest.py.  The `strftime`
renderings of the date are inputs (`dateStr = date.strftime("%b %d")`,
`dateFull = date.strftime("%B %d, %Y")`, `dateIso = date.isoformat()`). -/
def generateMetadata (clips : List Clip) (dateStr dateFull dateIso : String) : DigestMetadata :=
  let titleHook :=
    match clips with
    | [] => "Daily Digest"
    | c :: cs => (maxByScore c cs).headline.getD "Daily Digest"
  let title := titleHook ++ " + More | NBA Pressers " ++ dateStr
  let timestamps := timestampsGo 0 clips
  let descriptionParts :=
    ["🏀 NBA Press Conference Digest - " ++ dateFull, "", "Today's top moments:", ""]
      ++ timestamps
      ++ ["", "---", "Sources (clips used under fair use for news commentary):"]
      ++ sourceLinesGo [] clips
      ++ ["", "For licensing inquiries: [your email]", "",
          "#NBA #Basketball #PressConference #NBAnews"]
  let twitterHighlights := (clips.take 4).map fun c =>
    (if clipScore c ≥ 8 then "👀" else "•") ++ " " ++ c.headline.getD ""
  let twitterText := "🏀 NBA Pressers Digest (" ++ dateStr ++ "):\n\n"
      ++ String.intercalate "\n" twitterHighlights ++ "\n\nFull breakdown ⬇️"
  let totalDuration := (clips.map effDuration).sum
  { title := title
    description := String.intercalate "\n" descriptionParts
    twitterText := twitterText
    timestamps := timestamps
    tags := ["NBA", "basketball", "press conference", "highlights", "sports news"]
    totalDurationSeconds := totalDuration
    totalDurationFormatted := fmtMinSec totalDuration
    clipCount := clips.length
    date := dateIso
    dateDisplay := dateFull }

/-! ## scripts/transcribe.py — captions -/

/-- `vtt_timestamp_to_seconds` of scripts/transcribe.py:
`hours*3600 + minutes*60 + seconds` from an `HH:MM:SS.mmm` string (extra
`:`-parts beyond the third are ignored, as in the Python indexing); `none`
models the raise on missing or non-numeric parts. -/
def vttTimestampToSeconds (ts : String) : Option ℚ :=
  match splitChar ':' ts.data with
  | p0 :: p1 :: p2 :: _ =>
    match pyIntChars p0, pyIntChars p1, pyFloatChars p2 with
    | some h, some m, some s => some ((h : ℚ) * 3600 + (m : ℚ) * 60 + s)
    | _, _, _ => none
  | _ => none

/-- Consume the leading `\d{2}:\d{2}:\d{2}\.\d{3}` of the regex in
`parse_vtt_to_segments`: the matched chars and the rest, or `none`. -/
def takeVttTs (l : List Char) : Option (List Char × List Char) :=
  match l with
  | a :: b :: c :: d :: e :: f :: g :: h :: i :: j :: k :: m :: rest =>
    if a.isDigit && b.isDigit && c = ':' && d.isDigit && e.isDigit && f = ':'
        && g.isDigit && h.isDigit && i = '.' && j.isDigit && k.isDigit && m.isDigit then
      some ([a, b, c, d, e, f, g, h, i, j, k, m], rest)
    else none
  | _ => none

/-- Consume a literal `-->`. -/
def dropArrow (l : List Char) : Option (List Char) :=
  match l with
  | '-' :: '-' :: '>' :: rest => some rest
  | _ => none

/-- The cue-line regex of `parse_vtt_to_segments`
(`(\d{2}:\d{2}:\d{2}\.\d{3})\s*-->\s*(\d{2}:\d{2}:\d{2}\.\d{3})`, matched at
the start of the line, trailing chars ignored): the two captured timestamp
strings. -/
def matchCue (l : List Char) : Option (String × String) := do
  let (t1, r1) ← takeVttTs l
  let r2 := r1.dropWhile isPySpace
  let r3 ← dropArrow r2
  let r4 := r3.dropWhile isPySpace
  let (t2, _) ← takeVttTs r4
  pure (⟨t1⟩, ⟨t2⟩)

/-- Find the `>` closing a `<[^>]+>` tag: the chars after it. -/
def findTagEnd : List Char → Option (List Char)
  | [] => none
  | c :: rest => if c = '>' then some rest else findTagEnd rest

/-- `re.sub(r'<[^>]+>', '', text)` of `parse_vtt_to_segments`: remove markup
tags (a `<` with no later `>`, or an immediate `>`, is literal text).  Fueled
by the char count; each step consumes at least one char. -/
def stripTagsAux : ℕ → List Char → List Char
  | 0, _ => []
  | _ + 1, [] => []
  | fuel + 1, c :: rest =>
    if c = '<' then
      match rest with
      | [] => ['<']
      | d :: rest2 =>
        if d = '>' then '<' :: stripTagsAux fuel rest
        else
          match findTagEnd rest2 with
          | some rest3 => stripTagsAux fuel rest3
          | none => '<' :: stripTagsAux fuel rest
    else c :: stripTagsAux fuel rest

/-- `re.sub(r'<[^>]+>', '', text)`. -/
def stripTags (l : List Char) : List Char := stripTagsAux (l.length + 1) l

/-- The inner text-collecting loop of `parse_vtt_to_segments`: gather
stripped-and-detagged lines until a blank line or one starting with a bare
timestamp; returns the collected texts and the unconsumed lines (the breaking
line is re-examined by the outer loop). -/
def collectTextLines : List (List Char) → List String × List (List Char)
  | [] => ([], [])
  | ln :: rest =>
    let t := stripWsL ln
    if t.isEmpty || (takeVttTs t).isSome then ([], ln :: rest)
    else
      let (xs, rem) := collectTextLines rest
      ((⟨stripTags t⟩ : String) :: xs, rem)

/-- The outer loop of `parse_vtt_to_segments`, fueled by the line count (each
step consumes at least one line). -/
def parseVttGo : ℕ → List (List Char) → List TranscriptSegment
  | 0, _ => []
  | _ + 1, [] => []
  | fuel + 1, ln :: rest =>
    match matchCue (stripWsL ln) with
    | none => parseVttGo fuel rest
    | some (s, e) =>
      match vttTimestampToSeconds s, vttTimestampToSeconds e with
      | some st, some en =>
        let (texts, rem) := collectTextLines rest
        let text := String.intercalate " " texts
        (if text ≠ "" then [({ start := some st, duration := some (en - st),
                               text := some text } : TranscriptSegment)] else [])
          ++ parseVttGo fuel rem
      | _, _ => parseVttGo fuel rest

/-- `merge_segments` of scripts/transcribe.py: drop segments whose
stripped-lowercased text was already seen, keeping the first occurrence. -/
def mergeSegmentsGo (seen : List String) : List TranscriptSegment → List TranscriptSegment
  | [] => []
  | s :: rest =>
    let key := pyLower (pyStrip (s.text.getD ""))
    if key ∈ seen then mergeSegmentsGo seen rest
    else s :: mergeSegmentsGo (key :: seen) rest

/-- `merge_segments` of scripts/transcribe.py. -/
def mergeSegments (segs : List TranscriptSegment) : List TranscriptSegment :=
  mergeSegmentsGo [] segs

/-- `parse_vtt_to_segments` of scripts/transcribe.py: cue lines to timestamped
text segments, then duplicate texts merged. -/
def parseVttToSegments (content : String) : List TranscriptSegment :=
  let lines := splitChar '\n' content.data
  mergeSegments (parseVttGo (lines.length + 1) lines)

/-- The packaging step of `get_captions_ytdlp` once a VTT file was read:
parse it, and return the transcript dict when any segment was parsed. -/
def buildTranscriptFromVtt (content : String) : Option TranscriptInfo :=
  let segments := parseVttToSegments content
  if segments.isEmpty then none
  else
    let fullText := String.intercalate " " (segments.map fun s => s.text.getD "")
    some { fullText := fullText, segments := segments,
           wordCount := (pyWords fullText.data).length, method := "captions" }

/-- `get_captions_ytdlp` of scripts/transcribe.py.  `autoVtt` is the VTT
content the `--write-auto-sub` invocation leaves in the tmpdir (`none` when
that run produced no caption file), `manualVtt` likewise for the
`--write-sub` invocation, which the code only attempts when the first glob
found no files. -/
def getCaptionsYtdlp (autoVtt manualVtt : Option String) : Option TranscriptInfo :=
  match autoVtt with
  | some content => buildTranscriptFromVtt content
  | none =>
    match manualVtt with
    | some content => buildTranscriptFromVtt content
    | none => none

/-! ## Theorems -/

/-- C2: for every title that contains (case-insensitively) at least one
keyword of `EXCLUDE_KEYWORDS`, `is_press_conference` returns `False`,
whatever keywords of `PRESS_CONFERENCE_KEYWORDS` the title also contains:
the exclude loop runs first and returns before the include loop is reached. -/
theorem excludeKeyword_forces_reject (title : String)
    (h : ∃ k ∈ EXCLUDE_KEYWORDS, pyContains k (pyLower title) = true) :
    isPressConference title = false := by
  obtain ⟨k, hk, hc⟩ := h
  have hany : EXCLUDE_KEYWORDS.any (fun k => pyContains k (pyLower title)) = true :=
    List.any_eq_true.mpr ⟨k, hk, hc⟩
  simp [isPressConference, hany]

/-- C2 witness: a title carrying both an include keyword (`interview`) and an
exclude keyword (`highlights`) is rejected. -/
theorem excludeKeyword_forces_reject_witness :
    isPressConference "Postgame Interview Highlights" = false :=
  excludeKeyword_forces_reject "Postgame Interview Highlights"
    ⟨"highlights", by decide, by decide⟩

/-- C1: for every moment with the required fields present whose timestamps
parse to `s` and `e` with `0 ≤ s` and `e ≤ duration + 10`, `validate_moment`
returns `False` when `s ≥ e`, `False` when `e - s` exceeds 90 s or is below
10 s, and `True` when `e - s` is exactly 15 s. -/
theorem validateMoment_duration_bounds (m : Moment) (d s e : ℚ)
    (st et hl : String) (sc : ℚ)
    (hst : m.startTime = some st) (het : m.endTime = some et)
    (hhl : m.headline = some hl) (hsc : m.score = some sc)
    (hs : timestampToSeconds st = some s) (he : timestampToSeconds et = some e)
    (h0 : 0 ≤ s) (hd : e ≤ d + 10) :
    (s ≥ e → validateMoment m d = some false)
    ∧ (e - s > 90 → validateMoment m d = some false)
    ∧ (e - s < 10 → validateMoment m d = some false)
    ∧ (e - s = 15 → validateMoment m d = some true) := by
  have hv : validateMoment m d =
      if s ≥ e then some false
      else if s < 0 ∨ e > d + 10 then some false
      else if e - s < 10 ∨ e - s > 90 then some false
      else some true := by
    unfold validateMoment
    rw [hst, het, hhl, hsc]
    simp only [Option.isNone_some, Bool.or_self, Bool.false_or, if_false,
      Option.getD_some]
    rw [hs, he]
    rfl
  rw [hv]
  refine ⟨fun hge => by rw [if_pos hge], fun hgt => ?_, fun hlt => ?_, fun heq => ?_⟩
  · have h1 : ¬ s ≥ e := by linarith
    have h2 : ¬ (s < 0 ∨ e > d + 10) := by push_neg; exact ⟨h0, hd⟩
    rw [if_neg h1, if_neg h2, if_pos (Or.inr hgt)]
  · by_cases h1 : s ≥ e
    · rw [if_pos h1]
    · have h2 : ¬ (s < 0 ∨ e > d + 10) := by push_neg; exact ⟨h0, hd⟩
      rw [if_neg h1, if_neg h2, if_pos (Or.inl hlt)]
  · have h1 : ¬ s ≥ e := by linarith
    have h2 : ¬ (s < 0 ∨ e > d + 10) := by push_neg; exact ⟨h0, hd⟩
    have h3 : ¬ (e - s < 10 ∨ e - s > 90) := by push_neg; constructor <;> linarith
    rw [if_neg h1, if_neg h2, if_neg h3]

/-- The concrete moment of the C1 witness: `0:10`–`0:25`, a 15-second clip. -/
def momentEx : Moment :=
  { startTime := some "0:10", endTime := some "0:25", headline := some "A headline",
    whyItMatters := none, score := some 9, category := none, videoId := none,
    team := none, sourceTitle := none, sourceUrl := none, person := none,
    startSeconds := none, endSeconds := none, durationSec := none }

/-- C1 witness: the 15-second moment `0:10`–`0:25` is accepted against a
100-second transcript. -/
theorem validateMoment_duration_bounds_witness :
    validateMoment momentEx 100 = some true :=
  (validateMoment_duration_bounds momentEx 100 10 25 "0:10" "0:25" "A headline" 9
      rfl rfl rfl rfl
      (by simp [timestampToSeconds, splitChar, pyIntChars, stripWsL, isPySpace,
            parseUDec, digitGroupsOk, digitsVal, pyNatVal, pyFloatChars, pyFloatBody,
            splitExp, parseMantissa, parseExpFactor])
      (by simp [timestampToSeconds, splitChar, pyIntChars, stripWsL, isPySpace,
            parseUDec, digitGroupsOk, digitsVal, pyNatVal, pyFloatChars, pyFloatBody,
            splitExp, parseMantissa, parseExpFactor])
      (by norm_num) (by norm_num)).2.2.2 (by norm_num)

/-- The validation loop in closed form: when every moment's validation
completes, the kept moments are exactly the accepted ones (enriched, in
order); when any moment's timestamp parse raises, the whole loop raises. -/
theorem collectValidMoments_eq (v : VideoData) (dur : ℚ) (ms : List Moment) :
    collectValidMoments v dur ms =
      if ms.all (fun m => (validateMoment m dur).isSome) then
        some ((ms.filter fun m => (validateMoment m dur).getD false).map (enrichMoment v))
      else none := by
  induction ms with
  | nil => simp [collectValidMoments]
  | cons m ms ih =>
    unfold collectValidMoments
    cases hvm : validateMoment m dur with
    | none => simp [List.all_cons, hvm]
    | some b =>
      cases b with
      | false =>
        rw [ih]
        by_cases hall : ms.all (fun m => (validateMoment m dur).isSome) = true
        · simp [List.all_cons, hvm, hall, List.filter_cons]
        · simp only [Bool.not_eq_true] at hall
          simp [List.all_cons, hvm, hall]
      | true =>
        rw [ih]
        by_cases hall : ms.all (fun m => (validateMoment m dur).isSome) = true
        · simp [List.all_cons, hvm, hall, List.filter_cons]
        · simp only [Bool.not_eq_true] at hall
          simp [List.all_cons, hvm, hall]

/-- C3 amended: when the LLM returned a moment array, the scoring stage keeps
exactly the moments `validate_moment` accepts — discarding malformed or
out-of-bound ones individually — provided every moment's validation completes;
but a moment whose `start_time`/`end_time` has a non-numeric `:`-separated
part makes `timestamp_to_seconds` raise `ValueError`, and the per-video
`except` branch then records the empty list for the whole video, dropping its
valid moments too. -/
theorem scoreVideoResult_filters_or_wipes
    (scoreFn : Provider → VideoData → Option (List Moment)) (p : Provider)
    (v : VideoData) (moments : List Moment) (h : scoreFn p v = some moments) :
    scoreVideoResult scoreFn p v =
      if moments.all (fun m => (validateMoment m (durationOfVideo v)).isSome) then
        (moments.filter fun m => (validateMoment m (durationOfVideo v)).getD false).map
          (enrichMoment v)
      else [] := by
  unfold scoreVideoResult
  rw [h]
  show (collectValidMoments v (durationOfVideo v) moments).getD [] = _
  rw [collectValidMoments_eq]
  by_cases hall : moments.all (fun m => (validateMoment m (durationOfVideo v)).isSome) = true
  · simp [hall]
  · simp only [Bool.not_eq_true] at hall
    simp [hall]

/-- A video with no transcript segments (duration estimate 3600 s). -/
def videoEx : VideoData :=
  { videoId := some "vid1", title := some "Coach postgame", team := some "Hawks",
    url := some "https://youtu.be/vid1", person := some "Coach", transcript := none }

/-- A well-formed 20-second moment. -/
def goodMomentEx : Moment :=
  { startTime := some "0:10", endTime := some "0:30", headline := some "Good moment",
    whyItMatters := none, score := some 8, category := none, videoId := none,
    team := none, sourceTitle := none, sourceUrl := none, person := none,
    startSeconds := none, endSeconds := none, durationSec := none }

/-- A moment whose `start_time` is a non-numeric `M:SS` string. -/
def badMomentEx : Moment :=
  { startTime := some "a:b", endTime := some "0:50", headline := some "Bad moment",
    whyItMatters := none, score := some 7, category := none, videoId := none,
    team := none, sourceTitle := none, sourceUrl := none, person := none,
    startSeconds := none, endSeconds := none, durationSec := none }

/-- The LLM oracle returning one valid and one non-numeric moment. -/
def scoreFnMixedEx : Provider → VideoData → Option (List Moment) :=
  fun _ _ => some [goodMomentEx, badMomentEx]

/-- The LLM oracle returning only the valid moment. -/
def scoreFnGoodEx : Provider → VideoData → Option (List Moment) :=
  fun _ _ => some [goodMomentEx]

/-- C3 counterexample: in the array `[goodMomentEx, badMomentEx]` the first
moment validates, yet the single non-numeric moment empties the whole video's
moment list (the claim would keep `[enrichMoment videoEx goodMomentEx]`). -/
theorem scoreVideoResult_wipes_counterexample :
    validateMoment goodMomentEx (durationOfVideo videoEx) = some true
    ∧ validateMoment badMomentEx (durationOfVideo videoEx) = none
    ∧ scoreVideoResult scoreFnMixedEx Provider.anthropic videoEx = []
    ∧ scoreVideoResult scoreFnMixedEx Provider.anthropic videoEx
        ≠ [enrichMoment videoEx goodMomentEx] := by
  have hdur : durationOfVideo videoEx = 3600 := by simp [durationOfVideo, videoEx]
  have hg : validateMoment goodMomentEx (durationOfVideo videoEx) = some true := by
    rw [hdur]
    simp [validateMoment, goodMomentEx, timestampToSeconds, splitChar, pyIntChars,
      stripWsL, isPySpace, parseUDec, digitGroupsOk, digitsVal, pyNatVal,
      pyFloatChars, pyFloatBody, splitExp, parseMantissa, parseExpFactor]
    norm_num
  have hb : validateMoment badMomentEx (durationOfVideo videoEx) = none := by
    rw [hdur]
    simp [validateMoment, badMomentEx, timestampToSeconds, splitChar, pyIntChars,
      stripWsL, isPySpace, parseUDec, digitGroupsOk, digitsVal, pyNatVal,
      pyFloatChars, pyFloatBody, splitExp, parseMantissa, parseExpFactor]
  have hres : scoreVideoResult scoreFnMixedEx Provider.anthropic videoEx = [] := by
    unfold scoreVideoResult
    simp only [scoreFnMixedEx]
    simp [collectValidMoments, hg, hb]
  refine ⟨hg, hb, hres, ?_⟩
  rw [hres]
  simp

/-- C3 amended witness: with the single well-formed moment, the recorded list
is exactly that moment, enriched. -/
theorem scoreVideoResult_filters_witness :
    scoreVideoResult scoreFnGoodEx Provider.anthropic videoEx
      = [enrichMoment videoEx goodMomentEx] := by
  have h := scoreVideoResult_filters_or_wipes scoreFnGoodEx Provider.anthropic videoEx
    [goodMomentEx] rfl
  rw [h]
  have hdur : durationOfVideo videoEx = 3600 := by simp [durationOfVideo, videoEx]
  have hg : validateMoment goodMomentEx (durationOfVideo videoEx) = some true := by
    rw [hdur]
    simp [validateMoment, goodMomentEx, timestampToSeconds, splitChar, pyIntChars,
      stripWsL, isPySpace, parseUDec, digitGroupsOk, digitsVal, pyNatVal,
      pyFloatChars, pyFloatBody, splitExp, parseMantissa, parseExpFactor]
    norm_num
  simp [hg, List.filter_cons]

/-- Assigning a key makes it present with that value. -/
theorem dictLookup_dictSet_self {α : Type} (m : List (String × α)) (k : String) (x : α) :
    dictLookup (dictSet m k x) k = some x := by
  induction m with
  | nil => simp [dictSet, dictLookup]
  | cons p rest ih =>
    obtain ⟨k', v'⟩ := p
    by_cases h : k' = k
    · simp [dictSet, dictLookup, h]
    · simp [dictSet, dictLookup, h, ih]

/-- Assigning one key leaves every other key's value alone. -/
theorem dictLookup_dictSet_ne {α : Type} (m : List (String × α)) (k' k : String) (x : α)
    (h : k' ≠ k) : dictLookup (dictSet m k' x) k = dictLookup m k := by
  induction m with
  | nil => simp [dictSet, dictLookup, h]
  | cons p rest ih =>
    obtain ⟨k0, v0⟩ := p
    by_cases h0 : k0 = k'
    · subst h0
      simp [dictSet, dictLookup, h]
    · by_cases h1 : k0 = k
      · subst h1
        simp only [dictSet]
        rw [if_neg h0]
        simp [dictLookup]
      · simp [dictSet, dictLookup, h0, h1, ih]

/-- Assignment never removes a key. -/
theorem dictLookup_dictSet_isSome {α : Type} (m : List (String × α)) (k' k : String) (x : α)
    (h : (dictLookup m k).isSome = true) :
    (dictLookup (dictSet m k' x) k).isSome = true := by
  by_cases hk : k' = k
  · subst hk
    rw [dictLookup_dictSet_self]
    rfl
  · rw [dictLookup_dictSet_ne m k' k x hk]
    exact h

/-- The scoring loop never removes a key from the accumulating dict. -/
theorem scoreAllGo_isSome_mono (scoreFn : Provider → VideoData → Option (List Moment))
    (p : Provider) (vs : List VideoData) (acc : List (String × List Moment)) (k : String)
    (h : (dictLookup acc k).isSome = true) :
    (dictLookup (scoreAllGo scoreFn p acc vs) k).isSome = true := by
  induction vs generalizing acc with
  | nil => exact h
  | cons w rest ih =>
    exact ih _ (dictLookup_dictSet_isSome _ _ _ _ h)

/-- After the scoring loop, every processed video's id is a key. -/
theorem scoreAllGo_mem_isSome (scoreFn : Provider → VideoData → Option (List Moment))
    (p : Provider) (vs : List VideoData) (acc : List (String × List Moment))
    (v : VideoData) (hv : v ∈ vs) :
    (dictLookup (scoreAllGo scoreFn p acc vs) (v.videoId.getD "unknown")).isSome = true := by
  induction vs generalizing acc with
  | nil => cases hv
  | cons w rest ih =>
    rcases List.mem_cons.mp hv with h | h
    · subst h
      exact scoreAllGo_isSome_mono scoreFn p rest _ _
        (by rw [dictLookup_dictSet_self]; rfl)
    · exact ih _ h

/-- Videos whose ids differ from `k` leave `k`'s value alone. -/
theorem scoreAllGo_lookup_of_forall_ne (scoreFn : Provider → VideoData → Option (List Moment))
    (p : Provider) (vs : List VideoData) (acc : List (String × List Moment)) (k : String)
    (h : ∀ w ∈ vs, w.videoId.getD "unknown" ≠ k) :
    dictLookup (scoreAllGo scoreFn p acc vs) k = dictLookup acc k := by
  induction vs generalizing acc with
  | nil => rfl
  | cons w rest ih =>
    rw [scoreAllGo, ih _ fun u hu => h u (List.mem_cons_of_mem _ hu),
      dictLookup_dictSet_ne _ _ _ _ (h w (List.mem_cons_self _ _))]

/-- With pairwise-distinct video ids, a video whose scoring raised ends with
the empty moment list recorded under its id. -/
theorem scoreAllGo_failed_empty (scoreFn : Provider → VideoData → Option (List Moment))
    (p : Provider) (vs : List VideoData) (acc : List (String × List Moment))
    (hnd : (vs.map fun v => v.videoId.getD "unknown").Nodup)
    (v : VideoData) (hv : v ∈ vs) (hfail : scoreFn p v = none) :
    dictLookup (scoreAllGo scoreFn p acc vs) (v.videoId.getD "unknown") = some [] := by
  induction vs generalizing acc with
  | nil => cases hv
  | cons w rest ih =>
    rw [List.map_cons, List.nodup_cons] at hnd
    rcases List.mem_cons.mp hv with h | h
    · subst h
      rw [scoreAllGo,
        scoreAllGo_lookup_of_forall_ne scoreFn p rest _ _
          (fun u hu hEq => hnd.1 (by rw [← hEq]; exact List.mem_map_of_mem _ hu))]
      have : scoreVideoResult scoreFn p v = [] := by
        unfold scoreVideoResult
        rw [hfail]
      rw [this, dictLookup_dictSet_self]
    · exact ih _ hnd.2 h

/-- C5: with LLM credentials present and a non-empty transcript list,
`score_all_transcripts` returns normally (`Except.ok`, never propagating a
per-video scoring exception), its dict has an entry for every input video's
id, and (for pairwise-distinct ids) a video whose scoring raised is recorded
with the empty moment list while the rest are still processed. -/
theorem scoreAllTranscripts_recovers (env : EnvState)
    (scoreFn : Provider → VideoData → Option (List Moment)) (p : Provider)
    (ts : List VideoData) (hne : ts ≠ []) (hcl : getLlmClient env = .ok p) :
    scoreAllTranscripts env scoreFn ts = .ok (scoreAllGo scoreFn p [] ts)
    ∧ (∀ v ∈ ts,
        (dictLookup (scoreAllGo scoreFn p [] ts) (v.videoId.getD "unknown")).isSome = true)
    ∧ ((ts.map fun v => v.videoId.getD "unknown").Nodup →
        ∀ v ∈ ts, scoreFn p v = none →
          dictLookup (scoreAllGo scoreFn p [] ts) (v.videoId.getD "unknown") = some []) := by
  refine ⟨?_, fun v hv => scoreAllGo_mem_isSome scoreFn p ts [] v hv,
    fun hnd v hv hfail => scoreAllGo_failed_empty scoreFn p ts [] hnd v hv hfail⟩
  unfold scoreAllTranscripts
  rw [hcl]
  simp [List.isEmpty_iff, hne]

/-- The example environment with an Anthropic key set. -/
def envWithKeyEx : EnvState :=
  { anthropicAvailable := true, groqAvailable := true,
    anthropicKey := true, groqKey := true }

/-- The example environment with neither API key set. -/
def envNoKeysEx : EnvState :=
  { anthropicAvailable := true, groqAvailable := true,
    anthropicKey := false, groqKey := false }

/-- An oracle whose every scoring call raises. -/
def scoreFnRaisesEx : Provider → VideoData → Option (List Moment) := fun _ _ => none

/-- C5 witness: one video whose scoring raises yields `ok` with the empty
moment list recorded under its id. -/
theorem scoreAllTranscripts_recovers_witness :
    scoreAllTranscripts envWithKeyEx scoreFnRaisesEx [videoEx]
      = .ok (scoreAllGo scoreFnRaisesEx Provider.anthropic [] [videoEx])
    ∧ dictLookup (scoreAllGo scoreFnRaisesEx Provider.anthropic [] [videoEx]) "vid1"
      = some [] := by
  have h := scoreAllTranscripts_recovers envWithKeyEx scoreFnRaisesEx Provider.anthropic
    [videoEx] (by simp) rfl
  refine ⟨h.1, ?_⟩
  have h2 := h.2.2 (by simp) videoEx (List.mem_singleton.mpr rfl) rfl
  simpa [videoEx] using h2

/-- C10: `score_all_transcripts` on the empty list returns the empty dict
before any client lookup (so it succeeds with no credentials), and the
missing-credentials `RuntimeError` surfaces only for a non-empty input. -/
theorem scoreAllTranscripts_empty_before_client (env : EnvState)
    (scoreFn : Provider → VideoData → Option (List Moment)) :
    scoreAllTranscripts env scoreFn [] = .ok []
    ∧ (env.anthropicKey = false → env.groqKey = false →
        ∀ ts : List VideoData, ts ≠ [] → scoreAllTranscripts env scoreFn ts = .error ()) := by
  constructor
  · rfl
  · intro ha hg ts hne
    have hcl : getLlmClient env = .error () := by
      simp [getLlmClient, ha, hg]
    unfold scoreAllTranscripts
    rw [hcl]
    simp [List.isEmpty_iff, hne]

/-- C10 witness: with neither key set, the empty list still returns the empty
dict while a one-video list raises. -/
theorem scoreAllTranscripts_empty_before_client_witness :
    scoreAllTranscripts envNoKeysEx scoreFnRaisesEx [] = .ok []
    ∧ scoreAllTranscripts envNoKeysEx scoreFnRaisesEx [videoEx] = .error () :=
  ⟨(scoreAllTranscripts_empty_before_client envNoKeysEx scoreFnRaisesEx).1,
    (scoreAllTranscripts_empty_before_client envNoKeysEx scoreFnRaisesEx).2
      rfl rfl [videoEx] (by simp)⟩

/-- Incrementing a team bumps its looked-up count by one. -/
theorem dictLookup_addTeam_self (m : List (String × ℕ)) (t : String) :
    dictLookup (addTeam m t) t = some ((dictLookup m t).getD 0 + 1) := by
  induction m with
  | nil => simp [addTeam, dictLookup]
  | cons p rest ih =>
    obtain ⟨k, v⟩ := p
    by_cases h : k = t
    · simp [addTeam, dictLookup, h]
    · simp [addTeam, dictLookup, h, ih]

/-- Incrementing one team leaves other teams' counts alone. -/
theorem dictLookup_addTeam_ne (m : List (String × ℕ)) (t s : String) (h : s ≠ t) :
    dictLookup (addTeam m t) s = dictLookup m s := by
  have h' : t ≠ s := h.symm
  induction m with
  | nil => simp [addTeam, dictLookup, h']
  | cons p rest ih =>
    obtain ⟨k, v⟩ := p
    by_cases hk : k = t
    · subst hk
      simp [addTeam, dictLookup, h']
    · by_cases hs : k = s
      · subst hs
        simp [addTeam, dictLookup, hk, h]
      · simp [addTeam, dictLookup, hk, hs, ih]

/-- `addTeam`'s key list: unchanged for a known team, the team appended for a
new one. -/
theorem keys_addTeam (m : List (String × ℕ)) (t : String) :
    (addTeam m t).map Prod.fst =
      if (dictLookup m t).isSome then m.map Prod.fst else m.map Prod.fst ++ [t] := by
  induction m with
  | nil => simp [addTeam, dictLookup]
  | cons p rest ih =>
    obtain ⟨k, v⟩ := p
    by_cases h : k = t
    · simp [addTeam, dictLookup, h]
    · simp only [addTeam, dictLookup, if_neg h, List.map_cons, ih]
      by_cases hs : (dictLookup rest t).isSome
      · simp [hs]
      · simp [hs]

/-- A key is in `m`'s key list iff it looks up. -/
theorem mem_keys_iff_lookup_isSome (m : List (String × ℕ)) (t : String) :
    t ∈ m.map Prod.fst ↔ (dictLookup m t).isSome = true := by
  induction m with
  | nil => simp [dictLookup]
  | cons p rest ih =>
    obtain ⟨k, v⟩ := p
    by_cases h : k = t
    · simp [dictLookup, h]
    · have h2 : ¬ t = k := fun hh => h hh.symm
      simp [dictLookup, h, h2, ih]

/-- `addTeam` preserves key-list `Nodup`. -/
theorem nodupKeys_addTeam (m : List (String × ℕ)) (t : String)
    (h : (m.map Prod.fst).Nodup) : ((addTeam m t).map Prod.fst).Nodup := by
  rw [keys_addTeam]
  by_cases hs : (dictLookup m t).isSome
  · simp [hs, h]
  · simp only [hs, if_false, Bool.false_eq_true]
    rw [List.nodup_append]
    refine ⟨h, List.nodup_singleton t, ?_⟩
    intro a ha hb
    rw [List.mem_singleton] at hb
    subst hb
    rw [mem_keys_iff_lookup_isSome] at ha
    exact hs ha

/-- With `Nodup` keys, pair membership is exactly lookup. -/
theorem pair_mem_iff_lookup (m : List (String × ℕ)) (t : String) (k : ℕ)
    (h : (m.map Prod.fst).Nodup) : (t, k) ∈ m ↔ dictLookup m t = some k := by
  induction m with
  | nil => simp [dictLookup]
  | cons p rest ih =>
    obtain ⟨k0, v0⟩ := p
    rw [List.map_cons, List.nodup_cons] at h
    by_cases hk : k0 = t
    · subst hk
      rw [List.mem_cons]
      constructor
      · rintro (hp | hp)
        · rw [Prod.mk.injEq] at hp
          simp [dictLookup, hp.2]
        · exact absurd (List.mem_map_of_mem Prod.fst hp) h.1
      · intro hp
        have hp2 : v0 = k := by simpa [dictLookup] using hp
        exact Or.inl (by rw [hp2])
    · rw [List.mem_cons]
      simp only [dictLookup, if_neg hk]
      rw [ih h.2]
      constructor
      · rintro (hp | hp)
        · rw [Prod.mk.injEq] at hp
          exact absurd hp.1.symm hk
        · exact hp
      · exact Or.inr

/-- The loop's counts: what `teamCountsGo` stores for `t` is the starting
count plus `t`'s occurrences among the clips' effective teams. -/
theorem teamCountsGo_getD (cs : List Clip) (m : List (String × ℕ)) (t : String) :
    (dictLookup (teamCountsGo m cs) t).getD 0
      = (dictLookup m t).getD 0 + (cs.map effTeam).count t := by
  induction cs generalizing m with
  | nil => simp [teamCountsGo]
  | cons c rest ih =>
    rw [teamCountsGo, ih]
    by_cases h : effTeam c = t
    · rw [List.map_cons]
      rw [h, dictLookup_addTeam_self, List.count_cons]
      simp only [Option.getD_some, beq_self_eq_true, if_true]
      omega
    · rw [List.map_cons, List.count_cons,
        dictLookup_addTeam_ne m (effTeam c) t (fun hh => h hh.symm)]
      have hbeq : (effTeam c == t) = false := by
        rw [beq_eq_false_iff_ne]
        exact h
      rw [hbeq]
      simp

/-- The loop's keys: `t` is a key iff it started as one or occurs among the
clips' effective teams. -/
theorem teamCountsGo_isSome (cs : List Clip) (m : List (String × ℕ)) (t : String) :
    (dictLookup (teamCountsGo m cs) t).isSome = true
      ↔ (dictLookup m t).isSome = true ∨ t ∈ cs.map effTeam := by
  induction cs generalizing m with
  | nil => simp [teamCountsGo]
  | cons c rest ih =>
    rw [teamCountsGo, ih, List.map_cons, List.mem_cons]
    by_cases h : effTeam c = t
    · subst h
      rw [dictLookup_addTeam_self]
      simp
    · rw [dictLookup_addTeam_ne m (effTeam c) t fun hh => h hh.symm]
      constructor
      · rintro (hp | hp)
        · exact Or.inl hp
        · exact Or.inr (Or.inr hp)
      · rintro (hp | hp | hp)
        · exact Or.inl hp
        · exact absurd hp.symm h
        · exact Or.inr hp

/-- The loop preserves key `Nodup`. -/
theorem teamCountsGo_nodupKeys (cs : List Clip) (m : List (String × ℕ))
    (h : (m.map Prod.fst).Nodup) : ((teamCountsGo m cs).map Prod.fst).Nodup := by
  induction cs generalizing m with
  | nil => exact h
  | cons c rest ih => exact ih _ (nodupKeys_addTeam m (effTeam c) h)

/-- `(n:ℚ) * 0.5 < k` over the rationals is `n < 2k` over the naturals. -/
theorem ratHalfLtIff (k n : ℕ) : ((n : ℚ) * (1 / 2) < (k : ℚ)) ↔ n < 2 * k := by
  constructor
  · intro h
    have : (n : ℚ) < 2 * k := by linarith
    exact_mod_cast this
  · intro h
    have : (n : ℚ) < 2 * k := by exact_mod_cast h
    linarith

/-- C9: for more than 3 clips, `check_content_diversity` emits an
over-representation warning for exactly the teams whose clip count strictly
exceeds half the clip count (`count > total * 0.5`). -/
theorem contentDiversity_overrep_iff (clips : List Clip) (t : String)
    (h : 3 < clips.length) :
    (∃ k, (t, k) ∈ overRepTeams clips)
      ↔ clips.length < 2 * (clips.map effTeam).count t := by
  have hnd := teamCountsGo_nodupKeys clips [] (by simp)
  have hcnt := teamCountsGo_getD clips [] t
  simp only [dictLookup, Option.getD_none] at hcnt
  rw [Nat.zero_add] at hcnt
  constructor
  · rintro ⟨k, hk⟩
    rw [overRepTeams, List.mem_filter] at hk
    have hpair := (pair_mem_iff_lookup (teamCounts clips) t k hnd).mp hk.1
    have hkval : k = (clips.map effTeam).count t := by
      have : (dictLookup (teamCounts clips) t).getD 0 = k := by rw [hpair]; rfl
      rw [teamCounts] at this
      rw [← this, hcnt]
    have hq := hk.2
    rw [Bool.and_eq_true, decide_eq_true_eq, decide_eq_true_eq] at hq
    have := (ratHalfLtIff k clips.length).mp (by exact_mod_cast hq.2)
    rw [hkval] at this
    exact this
  · intro hgt
    have hpos : 0 < (clips.map effTeam).count t := by omega
    have hmem : t ∈ clips.map effTeam := List.count_pos_iff.mp hpos
    have hsome : (dictLookup (teamCounts clips) t).isSome = true := by
      rw [teamCounts]
      exact (teamCountsGo_isSome clips [] t).mpr (Or.inr hmem)
    obtain ⟨k, hk⟩ := Option.isSome_iff_exists.mp hsome
    refine ⟨k, ?_⟩
    rw [overRepTeams, List.mem_filter]
    have hkval : k = (clips.map effTeam).count t := by
      have : (dictLookup (teamCounts clips) t).getD 0 = k := by rw [hk]; rfl
      rw [teamCounts] at this
      rw [← this, hcnt]
    refine ⟨(pair_mem_iff_lookup (teamCounts clips) t k hnd).mpr hk, ?_⟩
    rw [Bool.and_eq_true, decide_eq_true_eq, decide_eq_true_eq]
    refine ⟨h, ?_⟩
    have : (clips.length : ℚ) * (1 / 2) < (k : ℚ) :=
      (ratHalfLtIff k clips.length).mpr (by omega)
    exact_mod_cast this

/-- A clip carrying only a team attribution. -/
def mkClipTeam (t : String) : Clip :=
  { videoId := none, team := some t, headline := none, sourceUrl := none,
    person := none, clipPath := none, score := none, duration := none,
    actualDuration := none, startSeconds := none, endSeconds := none }

/-- Ten clips, six of them from one team. -/
def clipsTenEx : List Clip :=
  List.replicate 6 (mkClipTeam "Hawks") ++ List.replicate 4 (mkClipTeam "Celtics")

/-- Ten clips split five and five. -/
def clipsFiveFiveEx : List Clip :=
  List.replicate 5 (mkClipTeam "Hawks") ++ List.replicate 5 (mkClipTeam "Celtics")

/-- C9 witness: 6 of 10 clips from one team draw the over-representation
warning for that team; 5 of 10 do not. -/
theorem contentDiversity_overrep_iff_witness :
    (∃ k, ("Hawks", k) ∈ overRepTeams clipsTenEx)
    ∧ ¬ (∃ k, ("Celtics", k) ∈ overRepTeams clipsFiveFiveEx) := by
  constructor
  · exact (contentDiversity_overrep_iff clipsTenEx "Hawks" (by decide)).mpr (by decide)
  · intro hx
    have hc := (contentDiversity_overrep_iff clipsFiveFiveEx "Celtics" (by decide)).mp hx
    exact absurd hc (by decide)

/-- A clip list passes `check_timestamps` iff no clip has `start ≥ end` or a
negative start. -/
theorem checkTimestampsGo_eq_nil_iff (clips : List Clip) (i : ℕ) :
    checkTimestampsGo i clips = []
      ↔ ∀ c ∈ clips,
          ¬(c.startSeconds.getD 0 ≥ c.endSeconds.getD 0 ∨ c.startSeconds.getD 0 < 0) := by
  induction clips generalizing i with
  | nil => simp [checkTimestampsGo]
  | cons c rest ih =>
    rw [checkTimestampsGo]
    constructor
    · intro h
      rw [List.append_assoc, List.append_eq_nil] at h
      rw [List.append_eq_nil] at h
      have h1 := h.1
      have h2 := h.2.1
      have h3 := (ih (i + 1)).mp h.2.2
      intro x hx
      rcases List.mem_cons.mp hx with hx | hx
      · subst hx
        rintro (hbad | hbad)
        · rw [if_pos hbad] at h1
          cases h1
        · rw [if_pos hbad] at h2
          cases h2
      · exact h3 x hx
    · intro h
      have hc := h c (List.mem_cons_self _ _)
      push_neg at hc
      rw [if_neg (by exact fun hbad => absurd hbad (not_le.mpr hc.1)), if_neg (by
        exact fun hbad => absurd hbad (not_lt.mpr hc.2))]
      simp only [List.nil_append]
      exact (ih (i + 1)).mpr fun x hx => h x (List.mem_cons_of_mem _ hx)

/-- A clip list passes `check_attribution` iff every clip has truthy `team`
and `source_url`. -/
theorem checkAttributionGo_eq_nil_iff (clips : List Clip) (i : ℕ) :
    checkAttributionGo i clips = []
      ↔ ∀ c ∈ clips, ¬(c.team.getD "" = "" ∨ c.sourceUrl.getD "" = "") := by
  induction clips generalizing i with
  | nil => simp [checkAttributionGo]
  | cons c rest ih =>
    rw [checkAttributionGo]
    constructor
    · intro h
      rw [List.append_assoc, List.append_eq_nil] at h
      rw [List.append_eq_nil] at h
      have h1 := h.1
      have h2 := h.2.1
      have h3 := (ih (i + 1)).mp h.2.2
      intro x hx
      rcases List.mem_cons.mp hx with hx | hx
      · subst hx
        rintro (hbad | hbad)
        · rw [if_pos hbad] at h1
          cases h1
        · rw [if_pos hbad] at h2
          cases h2
      · exact h3 x hx
    · intro h
      have hc := h c (List.mem_cons_self _ _)
      push_neg at hc
      rw [if_neg hc.1, if_neg hc.2]
      simp only [List.nil_append]
      exact (ih (i + 1)).mpr fun x hx => h x (List.mem_cons_of_mem _ hx)


/-- A list is non-`isEmpty` exactly when it is not `[]`. -/
theorem isEmptyFalseIff (l : List String) : (l.isEmpty = false) ↔ l ≠ [] := by
  cases l <;> simp

/-- C8: `run_qa_checks` clears `all_passed` exactly when the timestamps check
fails (a clip with `start ≥ end` or negative start), the attribution check
fails (a clip with falsy `team` or `source_url`), or a truthy video path names
an existing file whose ffprobe run raises; clip-accuracy and content-diversity
warnings never clear it. -/
theorem runQaChecks_allPassed_iff (clips : List Clip) (vp : Option String)
    (fsE : Bool) (probe : Option FFProbeInfo) :
    (runQaChecks clips vp fsE probe).allPassed = false ↔
      (∃ c ∈ clips, c.startSeconds.getD 0 ≥ c.endSeconds.getD 0 ∨ c.startSeconds.getD 0 < 0)
      ∨ (∃ c ∈ clips, c.team.getD "" = "" ∨ c.sourceUrl.getD "" = "")
      ∨ (vp.getD "" ≠ "" ∧ fsE = true ∧ probe = none) := by
  have hts : (checkTimestamps clips).1 = false
      ↔ ∃ c ∈ clips, c.startSeconds.getD 0 ≥ c.endSeconds.getD 0 ∨ c.startSeconds.getD 0 < 0 := by
    show ((checkTimestampsGo 1 clips).isEmpty = false) ↔ _
    rw [isEmptyFalseIff]
    rw [ne_eq, checkTimestampsGo_eq_nil_iff clips 1]
    push_neg
    simp
  have hat : (checkAttribution clips).1 = false
      ↔ ∃ c ∈ clips, c.team.getD "" = "" ∨ c.sourceUrl.getD "" = "" := by
    show ((checkAttributionGo 1 clips).isEmpty = false) ↔ _
    rw [isEmptyFalseIff]
    rw [ne_eq, checkAttributionGo_eq_nil_iff clips 1]
    push_neg
    simp
  unfold runQaChecks
  simp only []
  by_cases hvr : vp.getD "" ≠ "" ∧ fsE = true
  · rw [if_pos hvr]
    obtain ⟨hv1, hv2⟩ := hvr
    subst hv2
    cases probe with
    | none =>
      simp [checkVideoQuality, hv1]
    | some info =>
      simp only [checkVideoQuality, Bool.not_true]
      simp [hv1]
      constructor
      · intro himp
        rcases Bool.eq_false_or_eq_true (checkTimestamps clips).1 with hb | hb
        · exact Or.inr (hat.mp (himp hb))
        · exact Or.inl (hts.mp hb)
      · rintro (hgood | hgood)
        · intro hb
          rw [hts.mpr hgood] at hb
          cases hb
        · intro _
          exact hat.mpr hgood
  · rw [if_neg hvr]
    simp
    constructor
    · intro himp
      rcases Bool.eq_false_or_eq_true (checkTimestamps clips).1 with hb | hb
      · exact Or.inr (Or.inl (hat.mp (himp hb)))
      · exact Or.inl (hts.mp hb)
    · rintro (hgood | hgood | hgood)
      · intro hb
        rw [hts.mpr hgood] at hb
        cases hb
      · intro _
        exact hat.mpr hgood
      · exact absurd ⟨hgood.1, hgood.2.1⟩ hvr

/-- `strBeginsWith p s`: does `s` start with `p`? -/
def strBeginsWith (p s : String) : Bool := listBeginsWith p.data s.data

/-- A string begins with itself before any suffix. -/
theorem strBeginsWith_append (p r : String) : strBeginsWith p (p ++ r) = true := by
  unfold strBeginsWith listBeginsWith
  rw [String.data_append, decide_eq_true_eq, List.take_left]

/-- A prefix of `s` is a prefix of `s ++ t`. -/
theorem strBeginsWith_append_right (p s t : String) (h : strBeginsWith p s = true) :
    strBeginsWith p (s ++ t) = true := by
  unfold strBeginsWith listBeginsWith at *
  rw [String.data_append]
  rw [decide_eq_true_eq] at *
  have hlen : p.data.length ≤ s.data.length := by
    have hl := congrArg List.length h
    rw [List.length_take] at hl
    omega
  rw [List.take_append_eq_append_take, h, Nat.sub_eq_zero_of_le hlen, List.take_zero,
    List.append_nil]

/-- One description entry per clip. -/
theorem timestampsGo_length (clips : List Clip) (cur : ℚ) :
    (timestampsGo cur clips).length = clips.length := by
  induction clips generalizing cur with
  | nil => rfl
  | cons c rest ih => simp [timestampsGo, ih]

/-- The `i`-th entry starts with the rendering of the accumulated offset. -/
theorem timestampsGo_get (clips : List Clip) (cur : ℚ) (i : ℕ)
    (h : i < (timestampsGo cur clips).length) :
    strBeginsWith (fmtMinSec (cur + ((clips.take i).map effDuration).sum))
      ((timestampsGo cur clips).get ⟨i, h⟩) = true := by
  induction clips generalizing cur i with
  | nil => simp [timestampsGo] at h
  | cons c rest ih =>
    cases i with
    | zero =>
      simp only [List.take_zero, List.map_nil, List.sum_nil, add_zero]
      show strBeginsWith (fmtMinSec cur)
        (fmtMinSec cur ++ " - " ++ c.headline.getD "Highlight"
          ++ " (" ++ c.team.getD "NBA" ++ ")") = true
      exact strBeginsWith_append_right _ _ _
        (strBeginsWith_append_right _ _ _
          (strBeginsWith_append_right _ _ _
            (strBeginsWith_append_right _ _ _ (strBeginsWith_append _ _))))
    | succ i =>
      have hlt : i < (timestampsGo (cur + effDuration c) rest).length := by
        rw [timestampsGo_length] at h ⊢
        simpa using Nat.lt_of_succ_lt_succ h
      have := ih (cur + effDuration c) i hlt
      rw [List.take_succ_cons, List.map_cons, List.sum_cons, ← add_assoc]
      show strBeginsWith (fmtMinSec (cur + effDuration c + ((rest.take i).map effDuration).sum))
        ((timestampsGo (cur + effDuration c) rest).get ⟨i, hlt⟩) = true
      exact this

/-- C7: the `i`-th timestamps entry of `generate_metadata` begins with the
`M:SS` rendering of the summed durations of clips `0..i-1` (so the first
begins with `0:00`), `clip_count` is the number of clips, and
`total_duration_seconds` is the sum of the clips' effective durations
(`actual_duration`, else `duration`, else 30). -/
theorem generateMetadata_offsets (clips : List Clip) (dateStr dateFull dateIso : String)
    (i : ℕ) (h : i < (generateMetadata clips dateStr dateFull dateIso).timestamps.length) :
    strBeginsWith (fmtMinSec (((clips.take i).map effDuration).sum))
        ((generateMetadata clips dateStr dateFull dateIso).timestamps.get ⟨i, h⟩) = true
    ∧ (generateMetadata clips dateStr dateFull dateIso).clipCount = clips.length
    ∧ (generateMetadata clips dateStr dateFull dateIso).totalDurationSeconds
        = (clips.map effDuration).sum := by
  refine ⟨?_, rfl, rfl⟩
  have hg := timestampsGo_get clips 0 i h
  rw [zero_add] at hg
  exact hg

/-- A clip with an `actual_duration` and a headline/team. -/
def mkClipDur (d : ℚ) (hdl t : String) : Clip :=
  { videoId := none, team := some t, headline := some hdl, sourceUrl := none,
    person := none, clipPath := none, score := none, duration := none,
    actualDuration := some d, startSeconds := none, endSeconds := none }

/-- Three clips with durations 30, 40 and 20 seconds. -/
def clipsThreeEx : List Clip :=
  [mkClipDur 30 "A" "Hawks", mkClipDur 40 "B" "Celtics", mkClipDur 20 "C" "Heat"]

/-- C7 witness: with durations [30, 40, 20] the third entry begins with
`1:10`, `clip_count` is 3 and `total_duration_seconds` is 90. -/
theorem generateMetadata_offsets_witness :
    strBeginsWith "1:10"
        ((generateMetadata clipsThreeEx "Oct 12" "October 12, 2026" "I").timestamps.get
          ⟨2, by show 2 < (timestampsGo 0 clipsThreeEx).length
                 rw [timestampsGo_length]
                 decide⟩) = true
    ∧ (generateMetadata clipsThreeEx "Oct 12" "October 12, 2026" "I").clipCount = 3
    ∧ (generateMetadata clipsThreeEx "Oct 12" "October 12, 2026" "I").totalDurationSeconds = 90 := by
  have hthm := generateMetadata_offsets clipsThreeEx "Oct 12" "October 12, 2026" "I" 2
    (by show 2 < (timestampsGo 0 clipsThreeEx).length
        rw [timestampsGo_length]
        decide)
  have hsum : ((clipsThreeEx.take 2).map effDuration).sum = 70 := by
    simp [clipsThreeEx, mkClipDur, effDuration]
    norm_num
  have hsum3 : (clipsThreeEx.map effDuration).sum = 90 := by
    simp [clipsThreeEx, mkClipDur, effDuration]
    norm_num
  have hfloor1 : ⌊(70 : ℚ) / 60⌋ = 1 := by
    rw [Int.floor_eq_iff]
    constructor <;> norm_num
  have hfloor2 : ⌊(70 : ℚ) - 60 * ((1 : ℤ) : ℚ)⌋ = 10 := by
    have he : (70 : ℚ) - 60 * ((1 : ℤ) : ℚ) = ((10 : ℤ) : ℚ) := by norm_num
    rw [he, Int.floor_intCast]
  have hfmt : fmtMinSec 70 = "1:10" := by
    unfold fmtMinSec
    rw [hfloor1, hfloor2]
    with_unfolding_all decide
  refine ⟨?_, hthm.2.1, by rw [hthm.2.2, hsum3]⟩
  have h1 := hthm.1
  rw [hsum, hfmt] at h1
  exact h1

theorem isPySpace_isDigit_false (c : Char) (h : isPySpace c = true) : c.isDigit = false := by
  simp only [isPySpace, Bool.or_eq_true, decide_eq_true_eq] at h
  rcases h with ((((h1 | h1) | h1) | h1) | h1) | h1 <;> subst h1 <;> decide

theorem isDigit_isPySpace_false (c : Char) (h : c.isDigit = true) : isPySpace c = false := by
  cases hsp : isPySpace c
  · rfl
  · rw [isPySpace_isDigit_false c hsp] at h
    cases h

theorem isDigit_ne (c x : Char) (h : c.isDigit = true) (hx : x.isDigit = false) : c ≠ x := by
  intro he
  subst he
  rw [h] at hx
  cases hx

theorem digitChar_isDigit (d : ℕ) (h : d < 10) : (Char.ofNat (48 + d)).isDigit = true := by
  interval_cases d <;> decide

theorem digitChar_toNat (d : ℕ) (h : d < 10) : (Char.ofNat (48 + d)).toNat = 48 + d := by
  interval_cases d <;> decide

theorem natDecimalAux_digits : ∀ fuel n, n < fuel → ∀ c ∈ natDecimalAux fuel n, c.isDigit = true := by
  intro fuel
  induction fuel with
  | zero => omega
  | succ fuel ih =>
    intro n hn c hc
    rw [natDecimalAux] at hc
    by_cases h10 : n < 10
    · rw [if_pos h10] at hc
      rw [List.mem_singleton] at hc
      subst hc
      exact digitChar_isDigit n h10
    · rw [if_neg h10] at hc
      rcases List.mem_append.mp hc with hc | hc
      · have hlt : n / 10 < fuel := by
          have := Nat.div_lt_self (by omega : 0 < n) (by omega : 1 < 10)
          omega
        exact ih (n / 10) hlt c hc
      · rw [List.mem_singleton] at hc
        subst hc
        exact digitChar_isDigit (n % 10) (Nat.mod_lt n (by omega))

theorem natDecimalAux_ne_nil : ∀ fuel n, n < fuel → natDecimalAux fuel n ≠ [] := by
  intro fuel
  induction fuel with
  | zero => omega
  | succ fuel _ =>
    intro n _
    rw [natDecimalAux]
    by_cases h10 : n < 10
    · rw [if_pos h10]
      simp
    · rw [if_neg h10]
      simp

theorem pyNatVal_append_singleton (l : List Char) (c : Char) :
    pyNatVal (l ++ [c]) = 10 * pyNatVal l + (c.toNat - 48) := by
  unfold pyNatVal
  rw [List.foldl_append]
  rfl

theorem natDecimalAux_val : ∀ fuel n, n < fuel → pyNatVal (natDecimalAux fuel n) = n := by
  intro fuel
  induction fuel with
  | zero => omega
  | succ fuel ih =>
    intro n hn
    rw [natDecimalAux]
    by_cases h10 : n < 10
    · rw [if_pos h10]
      show pyNatVal ([] ++ [Char.ofNat (48 + n)]) = n
      rw [pyNatVal_append_singleton, digitChar_toNat n h10]
      simp [pyNatVal]
    · rw [if_neg h10]
      have hlt : n / 10 < fuel := by
        have := Nat.div_lt_self (by omega : 0 < n) (by omega : 1 < 10)
        omega
      rw [pyNatVal_append_singleton, ih (n / 10) hlt,
        digitChar_toNat (n % 10) (Nat.mod_lt n (by omega))]
      omega

/-- Every char of `str(n)` is a digit. -/
theorem natDecimal_digits (m : ℕ) : ∀ c ∈ natDecimal m, c.isDigit = true :=
  natDecimalAux_digits (m + 1) m (Nat.lt_succ_self m)

/-- `str(n)` is never empty. -/
theorem natDecimal_ne_nil (m : ℕ) : natDecimal m ≠ [] :=
  natDecimalAux_ne_nil (m + 1) m (Nat.lt_succ_self m)

/-- The digit fold reads `str(n)` back to `n`. -/
theorem natDecimal_val (m : ℕ) : pyNatVal (natDecimal m) = m :=
  natDecimalAux_val (m + 1) m (Nat.lt_succ_self m)

/-- Every char of a two-padded rendering is a digit. -/
theorem pad2_digits (k : ℕ) : ∀ c ∈ pad2 k, c.isDigit = true := by
  intro c hc
  unfold pad2 at hc
  by_cases h10 : k < 10
  · rw [if_pos h10] at hc
    rcases List.mem_cons.mp hc with hc | hc
    · subst hc
      decide
    · exact natDecimal_digits k c hc
  · rw [if_neg h10] at hc
    exact natDecimal_digits k c hc

theorem splitChar_of_not_mem (sep : Char) (l : List Char) (h : ∀ c ∈ l, c ≠ sep) :
    splitChar sep l = [l] := by
  induction l with
  | nil => rfl
  | cons a rest ih =>
    rw [splitChar, if_neg (h a (List.mem_cons_self _ _)),
      ih fun c hc => h c (List.mem_cons_of_mem _ hc)]

theorem splitChar_append (sep : Char) (l1 l2 : List Char) (h : ∀ c ∈ l1, c ≠ sep) :
    splitChar sep (l1 ++ sep :: l2) = l1 :: splitChar sep l2 := by
  induction l1 with
  | nil =>
    show splitChar sep (sep :: l2) = [] :: splitChar sep l2
    rw [splitChar, if_pos rfl]
  | cons a rest ih =>
    show splitChar sep (a :: (rest ++ sep :: l2)) = (a :: rest) :: splitChar sep l2
    rw [splitChar, if_neg (h a (List.mem_cons_self _ _)),
      ih fun c hc => h c (List.mem_cons_of_mem _ hc)]

theorem dropWhile_eq_self_of (p : Char → Bool) (l : List Char)
    (h : ∀ c ∈ l, p c = false) : l.dropWhile p = l := by
  cases l with
  | nil => rfl
  | cons a rest =>
    rw [List.dropWhile_cons, h a (List.mem_cons_self _ _)]
    simp

theorem stripWsL_eq_self (l : List Char) (h : ∀ c ∈ l, isPySpace c = false) :
    stripWsL l = l := by
  unfold stripWsL
  rw [dropWhile_eq_self_of _ _ h,
    dropWhile_eq_self_of _ _ fun c hc => h c (List.mem_reverse.mp hc),
    List.reverse_reverse]

theorem digitGroupsOk_of_digits (l : List Char) (hne : l ≠ [])
    (h : ∀ c ∈ l, c.isDigit = true) : digitGroupsOk l = true := by
  unfold digitGroupsOk
  rw [splitChar_of_not_mem '_' l fun c hc => isDigit_ne c '_' (h c hc) (by decide)]
  have h1 : l.isEmpty = false := by
    cases hl : l
    · exact absurd hl hne
    · rfl
  simp [h1, List.all_eq_true]
  exact h

theorem digitsVal_of_digits (l : List Char) (h : ∀ c ∈ l, c.isDigit = true) :
    digitsVal l = pyNatVal l := by
  unfold digitsVal
  rw [List.filter_eq_self.mpr fun a ha => by
    simp only [decide_eq_true_eq]
    exact isDigit_ne a '_' (h a ha) (by decide)]

/-- `int()` reads `str(m)` back to `m`. -/
theorem pyIntChars_natDecimal (m : ℕ) : pyIntChars (natDecimal m) = some (m : ℤ) := by
  have hd := natDecimal_digits m
  have hne := natDecimal_ne_nil m
  have hstrip : stripWsL (natDecimal m) = natDecimal m :=
    stripWsL_eq_self _ fun c hc => isDigit_isPySpace_false c (hd c hc)
  obtain ⟨c, rest, hcr⟩ : ∃ c rest, natDecimal m = c :: rest := by
    cases hl : natDecimal m with
    | nil => exact absurd hl hne
    | cons c rest => exact ⟨c, rest, rfl⟩
  have hcd : c.isDigit = true := hd c (by rw [hcr]; exact List.mem_cons_self _ _)
  unfold pyIntChars
  rw [hstrip, hcr]
  simp only []
  rw [if_neg (isDigit_ne c '+' hcd (by decide)), if_neg (isDigit_ne c '-' hcd (by decide))]
  rw [← hcr]
  unfold parseUDec
  rw [if_pos (digitGroupsOk_of_digits _ hne hd), digitsVal_of_digits _ hd, natDecimal_val]
  rfl

theorem splitExp_of_digits (l : List Char) (h : ∀ c ∈ l, c.isDigit = true) :
    splitExp l = (l, none) := by
  induction l with
  | nil => rfl
  | cons a rest ih =>
    have ha := h a (List.mem_cons_self _ _)
    rw [splitExp, if_neg (by
      rintro (he | he) <;> subst he <;> simp at ha),
      ih fun c hc => h c (List.mem_cons_of_mem _ hc)]

/-- `float()` reads a pure digit run as its value. -/
theorem pyFloatBody_of_digits (l : List Char) (hne : l ≠ [])
    (h : ∀ c ∈ l, c.isDigit = true) : pyFloatBody l = some ((pyNatVal l : ℚ)) := by
  unfold pyFloatBody
  rw [splitExp_of_digits l h]
  show parseMantissa l = _
  unfold parseMantissa
  rw [splitChar_of_not_mem '.' l fun c hc => isDigit_ne c '.' (h c hc) (by decide)]
  simp only []
  rw [if_pos (digitGroupsOk_of_digits _ hne h), digitsVal_of_digits _ h]

/-- `float()` reads the two-padded rendering of `k` back to `k`. -/
theorem pyFloatChars_pad2 (k : ℕ) : pyFloatChars (pad2 k) = some (k : ℚ) := by
  have hd := pad2_digits k
  have hne : pad2 k ≠ [] := by
    unfold pad2
    by_cases h10 : k < 10
    · rw [if_pos h10]
      simp
    · rw [if_neg h10]
      exact natDecimal_ne_nil k
  have hval : pyNatVal (pad2 k) = k := by
    unfold pad2
    by_cases h10 : k < 10
    · rw [if_pos h10]
      show List.foldl _ 0 ('0' :: natDecimal k) = k
      rw [List.foldl_cons]
      show List.foldl _ (10 * 0 + ('0'.toNat - 48)) (natDecimal k) = k
      norm_num
      exact natDecimal_val k
    · rw [if_neg h10]
      exact natDecimal_val k
  have hstrip : stripWsL (pad2 k) = pad2 k :=
    stripWsL_eq_self _ fun c hc => isDigit_isPySpace_false c (hd c hc)
  obtain ⟨c, rest, hcr⟩ : ∃ c rest, pad2 k = c :: rest := by
    cases hl : pad2 k with
    | nil => exact absurd hl hne
    | cons c rest => exact ⟨c, rest, rfl⟩
  have hcd : c.isDigit = true := hd c (by rw [hcr]; exact List.mem_cons_self _ _)
  unfold pyFloatChars
  rw [hstrip, hcr]
  simp only []
  rw [if_neg (isDigit_ne c '+' hcd (by decide)), if_neg (isDigit_ne c '-' hcd (by decide))]
  rw [← hcr, pyFloatBody_of_digits _ hne hd, hval]

/-- `int(n // 60)` over the rationals is natural division. -/
theorem floor_div_sixty (n : ℕ) : ⌊(n : ℚ) / 60⌋ = ((n / 60 : ℕ) : ℤ) := by
  rw [Int.floor_eq_iff]
  constructor
  · push_cast
    rw [le_div_iff₀ (by norm_num : (0 : ℚ) < 60)]
    exact_mod_cast Nat.div_mul_le_self n 60
  · push_cast
    rw [div_lt_iff₀ (by norm_num : (0 : ℚ) < 60)]
    have hx : n < (n / 60 + 1) * 60 := by
      have h1 := Nat.div_add_mod n 60
      have h2 : n % 60 < 60 := Nat.mod_lt n (by omega)
      omega
    exact_mod_cast hx

/-- `int(n % 60)` over the rationals is the natural remainder. -/
theorem floor_mod_sixty (n : ℕ) :
    ⌊(n : ℚ) - 60 * (((n / 60 : ℕ) : ℤ) : ℚ)⌋ = ((n % 60 : ℕ) : ℤ) := by
  have hn : 60 * (n / 60) + n % 60 = n := Nat.div_add_mod n 60
  have hq : (n : ℚ) = 60 * ((n / 60 : ℕ) : ℚ) + ((n % 60 : ℕ) : ℚ) := by
    exact_mod_cast hn.symm
  have he : (n : ℚ) - 60 * (((n / 60 : ℕ) : ℤ) : ℚ) = ((n % 60 : ℕ) : ℚ) := by
    rw [Int.cast_natCast]
    linarith [hq]
  rw [he]
  exact_mod_cast Int.floor_natCast (n % 60)

/-- On a whole number of seconds the `M:SS` formatter renders natural minutes
and the two-padded natural remainder. -/
theorem fmtMinSec_natCast (n : ℕ) :
    fmtMinSec (n : ℚ) = ⟨natDecimal (n / 60) ++ ':' :: pad2 (n % 60)⟩ := by
  unfold fmtMinSec
  rw [floor_div_sixty, floor_mod_sixty]
  rw [Int.toNat_natCast]
  congr 1

/-- C6: `timestamp_to_seconds` parses `"2:34"` to 154 s and `"1:02:03"` to
3723 s, and for every `n : ℕ` it inverts the `M:SS` formatter of
`format_transcript_for_scoring` (`minutes = n // 60`, `seconds = n % 60`
zero-padded): parsing `fmtMinSec n` gives back `n`. -/
theorem timestampToSeconds_roundtrip :
    timestampToSeconds "2:34" = some 154
    ∧ timestampToSeconds "1:02:03" = some 3723
    ∧ ∀ n : ℕ, timestampToSeconds (fmtMinSec (n : ℚ)) = some (n : ℚ) := by
  refine ⟨?_, ?_, ?_⟩
  · simp [timestampToSeconds, splitChar, pyIntChars, stripWsL, isPySpace, parseUDec,
      digitGroupsOk, digitsVal, pyNatVal, pyFloatChars, pyFloatBody, splitExp,
      parseMantissa, parseExpFactor]
    norm_num
  · simp [timestampToSeconds, splitChar, pyIntChars, stripWsL, isPySpace, parseUDec,
      digitGroupsOk, digitsVal, pyNatVal, pyFloatChars, pyFloatBody, splitExp,
      parseMantissa, parseExpFactor]
    norm_num
  · intro n
    unfold timestampToSeconds
    rw [fmtMinSec_natCast]
    show (match splitChar ':' (natDecimal (n / 60) ++ ':' :: pad2 (n % 60)) with
      | [a, b] =>
        match pyIntChars a, pyFloatChars b with
        | some m, some s => some ((m : ℚ) * 60 + s)
        | _, _ => none
      | [a, b, c] =>
        match pyIntChars a, pyIntChars b, pyFloatChars c with
        | some h, some m, some s => some ((h : ℚ) * 3600 + (m : ℚ) * 60 + s)
        | _, _, _ => none
      | _ => some 0) = some (n : ℚ)
    rw [splitChar_append ':' _ _
        (fun c hc => isDigit_ne c ':' (natDecimal_digits (n / 60) c hc) (by decide)),
      splitChar_of_not_mem ':' _
        (fun c hc => isDigit_ne c ':' (pad2_digits (n % 60) c hc) (by decide))]
    simp only []
    rw [pyIntChars_natDecimal, pyFloatChars_pad2]
    simp only []
    congr 1
    rw [Int.cast_natCast]
    exact_mod_cast (show n / 60 * 60 + n % 60 = n by omega)

/-- C4 amended: `get_captions_ytdlp` prefers auto-generated captions over
manual ones — the `--write-auto-sub` invocation runs first and whenever it
produces a VTT file the transcript is built from that file alone, the manual
fetch never being attempted; the `--write-sub` (manual) invocation is tried
only when the auto fetch left no VTT files. -/
theorem getCaptionsYtdlp_auto_first (a : String) (m : Option String) :
    getCaptionsYtdlp (some a) m = buildTranscriptFromVtt a
    ∧ getCaptionsYtdlp none m = m.bind buildTranscriptFromVtt := by
  constructor
  · rfl
  · cases m <;> rfl

/-- An auto-generated caption track. -/
def autoVttEx : String := "00:00:01.000 --> 00:00:03.000\nHello auto\n"

/-- A manual caption track for the same video, with different text. -/
def manualVttEx : String := "00:00:01.000 --> 00:00:03.000\nHello manual\n"

/-- C4 counterexample: with both an auto-generated and a manual English track
available, the returned transcript reads `"Hello auto"` — it is built from the
auto-generated track, not (as the claim states) from the manual one, whose
transcript would read `"Hello manual"`. -/
theorem getCaptionsYtdlp_counterexample :
    (getCaptionsYtdlp (some autoVttEx) (some manualVttEx)).map (fun t => t.fullText)
      = some "Hello auto"
    ∧ (getCaptionsYtdlp none (some manualVttEx)).map (fun t => t.fullText)
      = some "Hello manual"
    ∧ getCaptionsYtdlp (some autoVttEx) (some manualVttEx)
      ≠ getCaptionsYtdlp none (some manualVttEx) := by
  have hA : (getCaptionsYtdlp (some autoVttEx) (some manualVttEx)).map (fun t => t.fullText)
      = some "Hello auto" := by
    simp [getCaptionsYtdlp, buildTranscriptFromVtt, parseVttToSegments, parseVttGo,
      mergeSegments, mergeSegmentsGo, collectTextLines, matchCue, takeVttTs, dropArrow,
      vttTimestampToSeconds, splitChar, stripWsL, isPySpace, stripTags, stripTagsAux,
      findTagEnd, pyIntChars, pyFloatChars, pyFloatBody, splitExp, parseMantissa,
      parseExpFactor, parseUDec, digitGroupsOk, digitsVal, pyNatVal, pyStrip, pyLower,
      autoVttEx, String.intercalate, String.intercalate.go, List.intercalate]
  have hB : (getCaptionsYtdlp none (some manualVttEx)).map (fun t => t.fullText)
      = some "Hello manual" := by
    simp [getCaptionsYtdlp, buildTranscriptFromVtt, parseVttToSegments, parseVttGo,
      mergeSegments, mergeSegmentsGo, collectTextLines, matchCue, takeVttTs, dropArrow,
      vttTimestampToSeconds, splitChar, stripWsL, isPySpace, stripTags, stripTagsAux,
      findTagEnd, pyIntChars, pyFloatChars, pyFloatBody, splitExp, parseMantissa,
      parseExpFactor, parseUDec, digitGroupsOk, digitsVal, pyNatVal, pyStrip, pyLower,
      manualVttEx, String.intercalate, String.intercalate.go, List.intercalate]
  refine ⟨hA, hB, fun he => ?_⟩
  rw [he] at hA
  rw [hA] at hB
  exact absurd hB (by decide)
